import Mathlib

/-!
Shallow embedding of the replay-buffer (`buffer.py`) and DQN-agent (`model.py`)
core of a reinforcement-learning training loop, together with proofs of the
behavioural claims about it.

Modelling conventions:
* float32 scalars are modelled as rationals (`ℚ`); the code performs only
  exact arithmetic (add, mul, sub, square, max) on them.
* a state vector (dtype float32, shape `state_shape`) is a `List ℚ`;
  the five storage columns are Lean lists whose length is the capacity.
* int32 action indices are modelled as `ℕ` (every action produced by the
  program — an argmax or a uniform draw over `n_actions` — is non-negative).
* a jax PRNG draw `jax.random.randint(key, 0, m)` / `jax.random.choice(key, m)`
  is modelled by an arbitrary natural `rng` reduced modulo `m`: for `rng`
  uniform over any range whose size is a multiple of `m`, `rng % m` is uniform
  over `[0, m)`.  `jax.random.uniform(key)` is modelled by an arbitrary
  rational in `[0, 1)`.  Key splitting disappears: each independent draw of a
  function becomes one explicit argument.
* the Deep Q-Network `dqn.apply(params, state)` is an opaque function
  `apply : P → S → List ℚ` returning the per-action Q-value vector.
-/

/-- A transition `(state, action, reward, done, next_state)` over state type `S`. -/
abbrev Transition (S : Type) := S × ℕ × ℚ × Bool × S

/-- `ReplayBufferStorage` from `buffer.py`: five columnar arrays plus the write
cursor and the full flag.  Each column is the list of its rows. -/
structure ReplayBufferStorage where
  states : List (List ℚ)
  actions : List ℕ
  rewards : List ℚ
  dones : List Bool
  next_states : List (List ℚ)
  cursor : ℕ
  full : Bool
deriving Repr, DecidableEq

/-- `init_buffer(buffer_size, state_shape)`: all five columns zero-filled at
the given capacity (`state_dim` is the single state dimension), cursor `0`,
full `false`. -/
def init_buffer (buffer_size : ℕ) (state_dim : ℕ) : ReplayBufferStorage :=
  { states := List.replicate buffer_size (List.replicate state_dim 0)
    actions := List.replicate buffer_size 0
    rewards := List.replicate buffer_size 0
    dones := List.replicate buffer_size false
    next_states := List.replicate buffer_size (List.replicate state_dim 0)
    cursor := 0
    full := false }

/-- `add_transition(buffer, transition)`: writes each component of the
transition into row `cursor` of its column (`.at[cursor].set`), advances the
cursor modulo the capacity (`buffer.rewards.shape[0]`), and sets `full` when
the new cursor wrapped to `0` (`jnp.where(new_cursor == 0, True, buffer.full)`). -/
def add_transition (buffer : ReplayBufferStorage) (transition : Transition (List ℚ)) :
    ReplayBufferStorage :=
  let (state, action, reward, done, next_state) := transition
  let cursor := buffer.cursor
  let max_buffer_size := buffer.rewards.length
  let new_cursor := (cursor + 1) % max_buffer_size
  { states := buffer.states.set cursor state
    actions := buffer.actions.set cursor action
    rewards := buffer.rewards.set cursor reward
    dones := buffer.dones.set cursor done
    next_states := buffer.next_states.set cursor next_state
    cursor := new_cursor
    full := if new_cursor = 0 then true else buffer.full }

/-- The row index drawn by `sample_transition`: the code computes
`max_buffer_size = jnp.where(buffer.full, buffer.rewards.shape[0], buffer.cursor)`
and then `jax.random.randint(subkey, 0, max_buffer_size)`, modelled as the
uniform raw draw `rng` reduced modulo that bound. -/
def sampleIndex (rng : ℕ) (buffer : ReplayBufferStorage) : ℕ :=
  let max_buffer_size := if buffer.full then buffer.rewards.length else buffer.cursor
  rng % max_buffer_size

/-- `sample_transition(rng, buffer)`: draws one row index and returns the
5-tuple stored at that row. -/
def sample_transition (rng : ℕ) (buffer : ReplayBufferStorage) : Transition (List ℚ) :=
  let i := sampleIndex rng buffer
  (buffer.states.getD i [], buffer.actions.getD i 0, buffer.rewards.getD i 0,
   buffer.dones.getD i false, buffer.next_states.getD i [])

/-- Folding `add_transition` over a list of transitions (a sequence of calls). -/
def addAll (buffer : ReplayBufferStorage) (ts : List (Transition (List ℚ))) :
    ReplayBufferStorage :=
  ts.foldl add_transition buffer

/-- `jnp.max` of a Q-value vector (the vectors the program takes a maximum of
are never empty; the `[]` case is given the junk value `0`). -/
def listMax : List ℚ → ℚ
  | [] => 0
  | x :: xs => xs.foldl max x

/-- Scanning tail of `jnp.argmax`: `i` is the index of the head of `l` within
the whole vector, `best`/`bestv` the best index and value seen so far; a later
element replaces the best only if strictly greater, so ties resolve to the
first occurrence exactly as `jnp.argmax` does. -/
def argmaxGo : List ℚ → ℕ → ℕ → ℚ → ℕ
  | [], _, best, _ => best
  | x :: xs, i, best, bestv =>
    if bestv < x then argmaxGo xs (i + 1) i x else argmaxGo xs (i + 1) best bestv

/-- `jnp.argmax` over a Q-value vector (first index attaining the maximum). -/
def listArgmax : List ℚ → ℕ
  | [] => 0
  | x :: xs => argmaxGo xs 1 0 x

/-! ### List helper lemmas -/

/-- `getD` at an index other than the one `set` touched is unchanged. -/
lemma getD_set_ne {α : Type} (l : List α) (n i : ℕ) (a d : α) (h : i ≠ n) :
    (l.set n a).getD i d = l.getD i d := by
  induction l generalizing n i with
  | nil => rfl
  | cons x xs ih =>
    cases n with
    | zero =>
      cases i with
      | zero => exact absurd rfl h
      | succ j => rfl
    | succ m =>
      cases i with
      | zero => rfl
      | succ j => simpa using ih m j (by omega)

/-- `getD` at the index `set` touched returns the new value (index in range). -/
lemma getD_set_self {α : Type} (l : List α) (n : ℕ) (a d : α) (h : n < l.length) :
    (l.set n a).getD n d = a := by
  induction l generalizing n with
  | nil => simp at h
  | cons x xs ih =>
    cases n with
    | zero => rfl
    | succ m => simpa using ih m (by simpa using h)

/-- `getD` reads the head of the dropped list. -/
lemma getD_eq_headD_drop {α : Type} (l : List α) (i : ℕ) (d : α) :
    l.getD i d = (l.drop i).headD d := by
  induction l generalizing i with
  | nil => simp
  | cons x xs ih =>
    cases i with
    | zero => rfl
    | succ j => simp

/-- The index returned by `argmaxGo` is either the incoming `best` or a later
position, hence below `i + xs.length` whenever `best < i`. -/
lemma argmaxGo_lt (xs : List ℚ) : ∀ (i best : ℕ) (bestv : ℚ), best < i →
    argmaxGo xs i best bestv < i + xs.length := by
  induction xs with
  | nil => intro i best bestv h; simpa [argmaxGo] using h
  | cons x xs ih =>
    intro i best bestv h
    simp only [argmaxGo]
    by_cases hx : bestv < x
    · simpa [hx, Nat.add_comm, Nat.add_left_comm] using ih (i + 1) i x (by omega)
    · have := ih (i + 1) best bestv (by omega)
      simp only [hx, if_false, List.length_cons]
      omega

/-- `jnp.argmax` returns an index inside the vector. -/
lemma listArgmax_lt (l : List ℚ) (h : l ≠ []) : listArgmax l < l.length := by
  cases l with
  | nil => exact absurd rfl h
  | cons x xs =>
    have h2 := argmaxGo_lt xs 1 0 x (by omega)
    simp only [listArgmax, List.length_cons]
    omega

/-- The value at the `argmaxGo` index is the running maximum: if `xs` is the
part of `l` from position `i` on, and `bestv` is the value of `l` at `best`,
the scan returns an index of `l` holding `xs.foldl max bestv`. -/
lemma argmaxGo_getD (l : List ℚ) : ∀ (xs : List ℚ) (i best : ℕ) (bestv : ℚ),
    l.drop i = xs → l.getD best 0 = bestv →
    l.getD (argmaxGo xs i best bestv) 0 = xs.foldl max bestv := by
  intro xs
  induction xs with
  | nil => intro i best bestv _ hb; simpa [argmaxGo] using hb
  | cons x xs ih =>
    intro i best bestv hdrop hb
    have hx : l.getD i 0 = x := by
      rw [getD_eq_headD_drop, hdrop]; rfl
    have hdrop' : l.drop (i + 1) = xs := by
      have : l.drop (i + 1) = (l.drop i).drop 1 := by
        rw [← List.drop_drop]
      rw [this, hdrop]; rfl
    simp only [argmaxGo, List.foldl_cons]
    by_cases hlt : bestv < x
    · have := ih (i + 1) i x hdrop' hx
      simpa [hlt, max_eq_right (le_of_lt hlt)] using this
    · have := ih (i + 1) best bestv hdrop' hb
      simpa [hlt, max_eq_left (not_lt.mp hlt)] using this

/-- The Q-value at the argmax index is the maximum Q-value. -/
lemma getD_listArgmax (l : List ℚ) (h : l ≠ []) :
    l.getD (listArgmax l) 0 = listMax l := by
  cases l with
  | nil => exact absurd rfl h
  | cons x xs =>
    have := argmaxGo_getD (x :: xs) xs 1 0 x (by rfl) (by rfl)
    simpa [listArgmax, listMax] using this

/-- Exact uniformity of a modular reduction: over any window of `k` full
periods, every residue `j < m` is hit exactly `k` times. -/
lemma card_filter_mod (m k j : ℕ) (hj : j < m) :
    ((Finset.range (k * m)).filter (fun r => r % m = j)).card = k := by
  induction k with
  | zero => simp
  | succ k ih =>
    have hsplit : Finset.range ((k + 1) * m) =
        Finset.range (k * m) ∪ Finset.Ico (k * m) ((k + 1) * m) := by
      rw [Finset.range_eq_Ico,
        Finset.Ico_union_Ico_eq_Ico (Nat.zero_le _) (by nlinarith)]
    have hdisj : Disjoint
        ((Finset.range (k * m)).filter (fun r => r % m = j))
        ((Finset.Ico (k * m) ((k + 1) * m)).filter (fun r => r % m = j)) := by
      refine Finset.disjoint_filter_filter ?_
      rw [Finset.range_eq_Ico]
      exact Finset.Ico_disjoint_Ico_consecutive 0 (k * m) ((k + 1) * m)
    have hone : ((Finset.Ico (k * m) ((k + 1) * m)).filter (fun r => r % m = j))
        = {k * m + j} := by
      ext r
      simp only [Finset.mem_filter, Finset.mem_Ico, Finset.mem_singleton]
      constructor
      · rintro ⟨⟨h1, h2⟩, h3⟩
        have hrep : r = (r - k * m) + k * m := by omega
        have hlt : r - k * m < m := by nlinarith
        have hmod : r % m = (r - k * m) % m := by
          conv_lhs => rw [hrep]
          rw [Nat.add_mul_mod_self_right]
        rw [Nat.mod_eq_of_lt hlt] at hmod
        omega
      · rintro rfl
        refine ⟨⟨by omega, by nlinarith⟩, ?_⟩
        rw [Nat.mul_comm k m, Nat.mul_add_mod]
        exact Nat.mod_eq_of_lt hj
    rw [hsplit, Finset.filter_union, Finset.card_union_of_disjoint hdisj, ih, hone]
    simp

/-! ### Agent operations from `model.py` -/

/-- `select_action(dqn, rng, params, state, epsilon)`: computes the Q-values,
takes `jnp.argmax`, draws a candidate random action
(`jax.random.choice(subkey, q_values.shape[-1])`, modelled by `rngChoice`
reduced modulo the number of actions) and an exploration coin
(`jax.random.uniform(subkey) < epsilon`, modelled by `rngUniform : ℚ` in
`[0,1)`), and returns the random action when the coin fires, else the greedy
one (`jnp.where(condition, random_action, max_action)`). -/
def select_action {P S : Type} (apply : P → S → List ℚ) (rngChoice : ℕ) (rngUniform : ℚ)
    (params : P) (state : S) (epsilon : ℚ) : ℕ :=
  let q_values := apply params state
  let max_action := listArgmax q_values
  let random_action := rngChoice % q_values.length
  let condition := rngUniform < epsilon
  if condition then random_action else max_action

/-- `compute_loss(dqn, params, target_params, transition, gamma)`: squared
error between the Q-value of the taken action under `params` and the TD target
`reward + gamma * (1 - done) * jnp.max(Q(next_state; target_params))`. -/
def compute_loss {P S : Type} (apply : P → S → List ℚ) (params target_params : P)
    (transition : Transition S) (gamma : ℚ) : ℚ :=
  let (state, action, reward, done, next_state) := transition
  let q_values := apply params state
  let q_value := q_values.getD action 0
  let next_q_values := apply target_params next_state
  let target_q_value :=
    reward + gamma * (1 - (if done then (1 : ℚ) else 0)) * listMax next_q_values
  (q_value - target_q_value) ^ 2

/-- `compute_loss_double_dqn`: same predicted value; the next action is the
argmax of `Q(next_state; params)` and the bootstrap value is read from
`Q(next_state; target_params)` at that action. -/
def compute_loss_double_dqn {P S : Type} (apply : P → S → List ℚ) (params target_params : P)
    (transition : Transition S) (gamma : ℚ) : ℚ :=
  let (state, action, reward, done, next_state) := transition
  let q_values := apply params state
  let q_value := q_values.getD action 0
  let next_q_values := apply params next_state
  let next_action := listArgmax next_q_values
  let target_q_values := apply target_params next_state
  let target_q_value :=
    reward + gamma * (1 - (if done then (1 : ℚ) else 0)) * target_q_values.getD next_action 0
  (q_value - target_q_value) ^ 2

/-- Spec-side decomposition: the predicted value `Q(state; params)[action]`
shared by both loss variants. -/
def predictedValue {P S : Type} (apply : P → S → List ℚ) (params : P) (state : S)
    (action : ℕ) : ℚ :=
  (apply params state).getD action 0

/-- Spec-side decomposition: the vanilla TD target
`reward + gamma * (1 - done) * max_a Q(next_state; target_params)[a]`. -/
def tdTarget {P S : Type} (apply : P → S → List ℚ) (target_params : P) (reward : ℚ)
    (done : Bool) (next_state : S) (gamma : ℚ) : ℚ :=
  reward + gamma * (1 - (if done then (1 : ℚ) else 0)) * listMax (apply target_params next_state)

/-- Spec-side decomposition: the double-DQN TD target, selecting the next
action with the current parameters and valuing it with the target parameters. -/
def tdTargetDouble {P S : Type} (apply : P → S → List ℚ) (params target_params : P)
    (reward : ℚ) (done : Bool) (next_state : S) (gamma : ℚ) : ℚ :=
  reward + gamma * (1 - (if done then (1 : ℚ) else 0)) *
    (apply target_params next_state).getD (listArgmax (apply params next_state)) 0

/-- `DQNTrainState`: current parameters, target parameters, optimizer state
and step counter (the fields of the flax `TrainState` plus `target_params`). -/
structure DQNTrainState (P O : Type) where
  params : P
  target_params : P
  opt_state : O
  step : ℕ
deriving DecidableEq

/-- `update_target(state)`: `state.replace(target_params=state.params)` —
only the target parameters change. -/
def update_target {P O : Type} (state : DQNTrainState P O) : DQNTrainState P O :=
  { state with target_params := state.params }

/-! ### Buffer trajectory lemma -/

set_option maxHeartbeats 1000000 in
/-- Effect of a whole sequence of `add_transition` calls on the bookkeeping
fields: lengths are preserved, the cursor advances by the number of adds
modulo the capacity, and the buffer is full exactly when it was already full
or the adds reached the capacity. -/
lemma addAll_spec (cap : ℕ) (hcap : 0 < cap) (ts : List (Transition (List ℚ))) :
    ∀ (buf : ReplayBufferStorage),
      buf.states.length = cap → buf.actions.length = cap → buf.rewards.length = cap →
      buf.dones.length = cap → buf.next_states.length = cap → buf.cursor < cap →
      (addAll buf ts).states.length = cap ∧ (addAll buf ts).actions.length = cap ∧
      (addAll buf ts).rewards.length = cap ∧ (addAll buf ts).dones.length = cap ∧
      (addAll buf ts).next_states.length = cap ∧
      (addAll buf ts).cursor = (buf.cursor + ts.length) % cap ∧
      ((addAll buf ts).full = true ↔ (buf.full = true ∨ cap ≤ buf.cursor + ts.length)) := by
  induction ts with
  | nil =>
    intro buf h1 h2 h3 h4 h5 h6
    refine ⟨h1, h2, h3, h4, h5, ?_, ?_⟩
    · simp [addAll, Nat.mod_eq_of_lt h6]
    · simp [addAll]; omega
  | cons t ts ih =>
    intro buf h1 h2 h3 h4 h5 h6
    have hstep : addAll buf (t :: ts) = addAll (add_transition buf t) ts := rfl
    have hb1 : (add_transition buf t).states.length = cap := by
      simp [add_transition, h1]
    have hb2 : (add_transition buf t).actions.length = cap := by
      simp [add_transition, h2]
    have hb3 : (add_transition buf t).rewards.length = cap := by
      simp [add_transition, h3]
    have hb4 : (add_transition buf t).dones.length = cap := by
      simp [add_transition, h4]
    have hb5 : (add_transition buf t).next_states.length = cap := by
      simp [add_transition, h5]
    have hcur : (add_transition buf t).cursor = (buf.cursor + 1) % cap := by
      simp [add_transition, h3]
    have hc' : (add_transition buf t).cursor < cap := by
      rw [hcur]; exact Nat.mod_lt _ hcap
    have hfull : ((add_transition buf t).full = true ↔
        (buf.full = true ∨ buf.cursor + 1 = cap)) := by
      simp only [add_transition, h3]
      by_cases hw : (buf.cursor + 1) % cap = 0
      · have : buf.cursor + 1 = cap := by
          rcases Nat.lt_or_ge (buf.cursor + 1) cap with hlt | hge
          · rw [Nat.mod_eq_of_lt hlt] at hw; omega
          · have : buf.cursor + 1 = cap := by omega
            exact this
        simp [hw, this]
      · have hne : buf.cursor + 1 ≠ cap := by
          intro hc; rw [hc, Nat.mod_self] at hw; exact hw rfl
        simp [hw, hne]
    obtain ⟨g1, g2, g3, g4, g5, g6, g7⟩ := ih (add_transition buf t) hb1 hb2 hb3 hb4 hb5 hc'
    rw [hstep]
    refine ⟨g1, g2, g3, g4, g5, ?_, ?_⟩
    · rw [g6, hcur, Nat.mod_add_mod]
      congr 1
      simp [List.length_cons]
      omega
    · rw [g7, hfull, hcur]
      clear ih hstep g1 g2 g3 g4 g5 g6 g7 hb1 hb2 hb3 hb4 hb5 h1 h2 h3 h4 h5 hc' hcur hfull
      simp only [List.length_cons]
      rcases Nat.lt_or_ge (buf.cursor + 1) cap with hlt | hge
      · rw [Nat.mod_eq_of_lt hlt]
        constructor
        · rintro ((h | h) | h)
          · exact Or.inl h
          · exact absurd h (by omega)
          · right; omega
        · rintro (h | h)
          · exact Or.inl (Or.inl h)
          · right; omega
      · have heq : buf.cursor + 1 = cap := by omega
        constructor
        · rintro ((h | h) | h)
          · exact Or.inl h
          · right; omega
          · right; omega
        · rintro (h | h)
          · exact Or.inl (Or.inl h)
          · exact Or.inl (Or.inr heq)

/-! ### Claim theorems -/

/-- C2: for every terminal transition (`done = true`) the TD target of
`compute_loss` collapses to the reward — the loss equals
`(Q(state;params)[action] - reward)^2` — and is therefore unchanged when
`next_state` or `target_params` is varied. -/
theorem compute_loss_terminal (P S : Type) (apply : P → S → List ℚ)
    (params tp tp' : P) (s : S) (a : ℕ) (r γ : ℚ) (ns ns' : S) :
    compute_loss apply params tp (s, a, r, true, ns) γ =
      ((apply params s).getD a 0 - r) ^ 2 ∧
    compute_loss apply params tp (s, a, r, true, ns) γ =
      compute_loss apply params tp' (s, a, r, true, ns') γ := by
  constructor <;> simp only [compute_loss, if_true] <;> ring_nf

/-- C3: both loss variants are the squared gap between the same predicted
value and their respective TD targets (the TD target is the only difference),
and with `params = target_params` the two losses agree on every transition. -/
theorem double_dqn_vs_vanilla (P S : Type) (apply : P → S → List ℚ) :
    (∀ (params target_params : P) (s ns : S) (a : ℕ) (r γ : ℚ) (d : Bool),
      compute_loss apply params target_params (s, a, r, d, ns) γ =
        (predictedValue apply params s a - tdTarget apply target_params r d ns γ) ^ 2) ∧
    (∀ (params target_params : P) (s ns : S) (a : ℕ) (r γ : ℚ) (d : Bool),
      compute_loss_double_dqn apply params target_params (s, a, r, d, ns) γ =
        (predictedValue apply params s a -
          tdTargetDouble apply params target_params r d ns γ) ^ 2) ∧
    (∀ (params : P) (s ns : S) (a : ℕ) (r γ : ℚ) (d : Bool),
      apply params ns ≠ [] →
      compute_loss_double_dqn apply params params (s, a, r, d, ns) γ =
        compute_loss apply params params (s, a, r, d, ns) γ) := by
  refine ⟨fun _ _ _ _ _ _ _ _ => rfl, fun _ _ _ _ _ _ _ _ => rfl, ?_⟩
  intro params s ns a r γ d h
  simp only [compute_loss, compute_loss_double_dqn]
  rw [getD_listArgmax _ h]

/-- C3 witness: with a two-action Q-function and equal current and target
parameters the double-DQN loss equals the vanilla loss at a concrete
transition. -/
theorem double_dqn_vs_vanilla_witness :
    ((fun (_ : Unit) (_ : Unit) => [(1 : ℚ), 2]) () () ≠ []) ∧
    compute_loss_double_dqn (fun (_ : Unit) (_ : Unit) => [(1 : ℚ), 2]) () ()
        ((), 0, 5, false, ()) 1 =
      compute_loss (fun (_ : Unit) (_ : Unit) => [(1 : ℚ), 2]) () ()
        ((), 0, 5, false, ()) 1 :=
  ⟨by decide,
    (double_dqn_vs_vanilla Unit Unit (fun _ _ => [(1 : ℚ), 2])).2.2 () () () 0 5 1 false
      (by decide)⟩

/-- C5: `update_target` copies the current parameters into the target
parameters and leaves `params`, the optimizer state, and the step counter
unchanged; repeating it without a parameter change returns the same state, so
both calls yield identical target parameters. -/
theorem update_target_spec (P O : Type) (s : DQNTrainState P O) :
    (update_target s).target_params = s.params ∧
    (update_target s).params = s.params ∧
    (update_target s).opt_state = s.opt_state ∧
    (update_target s).step = s.step ∧
    update_target (update_target s) = update_target s ∧
    (update_target (update_target s)).target_params =
      (update_target s).target_params :=
  ⟨rfl, rfl, rfl, rfl, rfl, rfl⟩

/-- A partially-filled demo buffer (capacity 10, three adds, cursor 3,
not yet full), used to witness the sampling bounds. -/
def demoT (x : ℚ) : Transition (List ℚ) := ([x], 0, x, false, [x])

/-- `init_buffer 10 1` after three `add_transition` calls. -/
def demoPartial : ReplayBufferStorage :=
  addAll (init_buffer 10 1) [demoT 1, demoT 2, demoT 3]

/-- C1: `sample_transition` returns the 5-tuple stored at the single drawn row
index; that index lies in `[0, capacity)` when the buffer is full and in
`[0, cursor)` otherwise (in particular it is never `≥ cursor` before the first
wrap), and the draw is exactly uniform: over any window of `k` full periods of
the raw generator value, each eligible row is drawn exactly `k` times. -/
theorem sample_transition_spec :
    (∀ (rng : ℕ) (buffer : ReplayBufferStorage),
      sample_transition rng buffer =
        (buffer.states.getD (sampleIndex rng buffer) [],
         buffer.actions.getD (sampleIndex rng buffer) 0,
         buffer.rewards.getD (sampleIndex rng buffer) 0,
         buffer.dones.getD (sampleIndex rng buffer) false,
         buffer.next_states.getD (sampleIndex rng buffer) [])) ∧
    (∀ (rng : ℕ) (buffer : ReplayBufferStorage),
      buffer.full = true → 0 < buffer.rewards.length →
      sampleIndex rng buffer < buffer.rewards.length) ∧
    (∀ (rng : ℕ) (buffer : ReplayBufferStorage),
      buffer.full = false → 0 < buffer.cursor →
      sampleIndex rng buffer < buffer.cursor) ∧
    (∀ (buffer : ReplayBufferStorage) (k j : ℕ),
      j < (if buffer.full then buffer.rewards.length else buffer.cursor) →
      ((Finset.range
          (k * (if buffer.full then buffer.rewards.length else buffer.cursor))).filter
        (fun rng => sampleIndex rng buffer = j)).card = k) := by
  refine ⟨fun rng buffer => rfl, ?_, ?_, ?_⟩
  · intro rng buffer hf h
    simp only [sampleIndex, hf, if_true]
    exact Nat.mod_lt _ h
  · intro rng buffer hf h
    simp only [sampleIndex, hf, if_false]
    exact Nat.mod_lt _ h
  · intro buffer k j hj
    have h := card_filter_mod
      (if buffer.full then buffer.rewards.length else buffer.cursor) k j hj
    simpa only [sampleIndex] using h

/-- C1 witness: for the partially-filled demo buffer (`full = false`,
`cursor = 3`) a concrete draw stays below the cursor. -/
theorem sample_transition_spec_witness :
    (demoPartial.full = false ∧ 0 < demoPartial.cursor) ∧
    sampleIndex 7 demoPartial < demoPartial.cursor :=
  ⟨⟨rfl, by decide⟩, sample_transition_spec.2.2.1 7 demoPartial rfl (by decide)⟩

/-- C6: with `epsilon = 0` the exploration coin (a uniform draw in `[0,1)`)
never fires and `select_action` returns the greedy action; with `epsilon = 1`
it always fires and the returned action is the candidate random action — the
raw draw reduced modulo `n_actions` — which is exactly uniform: over any
window of `k` full periods of the raw draw each action is returned exactly
`k` times. -/
theorem select_action_epsilon_boundary (P S : Type) :
    (∀ (apply : P → S → List ℚ) (rngChoice : ℕ) (rngUniform : ℚ)
        (params : P) (state : S),
      0 ≤ rngUniform →
      select_action apply rngChoice rngUniform params state 0 =
        listArgmax (apply params state)) ∧
    (∀ (apply : P → S → List ℚ) (rngChoice : ℕ) (rngUniform : ℚ)
        (params : P) (state : S),
      rngUniform < 1 →
      select_action apply rngChoice rngUniform params state 1 =
        rngChoice % (apply params state).length) ∧
    (∀ (apply : P → S → List ℚ) (params : P) (state : S) (rngUniform : ℚ) (k j : ℕ),
      rngUniform < 1 → j < (apply params state).length →
      ((Finset.range (k * (apply params state).length)).filter
        (fun rngChoice =>
          select_action apply rngChoice rngUniform params state 1 = j)).card = k) := by
  refine ⟨?_, ?_, ?_⟩
  · intro apply rc ru p s h
    simp only [select_action]
    rw [if_neg (not_lt.mpr h)]
  · intro apply rc ru p s h
    simp only [select_action]
    rw [if_pos h]
  · intro apply p s ru k j hru hj
    have hpred : ∀ rc : ℕ,
        select_action apply rc ru p s 1 = rc % (apply p s).length := by
      intro rc
      simp only [select_action]
      rw [if_pos hru]
    have hfilter : ((Finset.range (k * (apply p s).length)).filter
          (fun rc => select_action apply rc ru p s 1 = j)) =
        ((Finset.range (k * (apply p s).length)).filter
          (fun rc => rc % (apply p s).length = j)) := by
      apply Finset.filter_congr
      intro x _
      rw [hpred x]
    rw [hfilter]
    exact card_filter_mod _ k j hj

/-- C6 witness: a concrete two-action Q-function; with `epsilon = 0` and coin
draw `1/2` the greedy action is returned. -/
theorem select_action_epsilon_boundary_witness :
    (0 : ℚ) ≤ 1 / 2 ∧
    select_action (fun (_ : Unit) (_ : Unit) => [(5 : ℚ), 2]) 3 (1 / 2) () () 0 =
      listArgmax [(5 : ℚ), 2] :=
  ⟨by norm_num,
    (select_action_epsilon_boundary Unit Unit).1 (fun _ _ => [(5 : ℚ), 2]) 3 (1 / 2) () ()
      (by norm_num)⟩

/-- C10: whichever branch is taken, `select_action` returns an action index
strictly below `n_actions` (the length of the Q-value vector). -/
theorem select_action_valid_index (P S : Type) (apply : P → S → List ℚ)
    (rngChoice : ℕ) (rngUniform : ℚ) (params : P) (state : S) (epsilon : ℚ)
    (h : 0 < (apply params state).length) :
    select_action apply rngChoice rngUniform params state epsilon <
      (apply params state).length := by
  simp only [select_action]
  by_cases hc : rngUniform < epsilon
  · rw [if_pos hc]
    exact Nat.mod_lt _ h
  · rw [if_neg hc]
    refine listArgmax_lt _ ?_
    intro hnil
    rw [hnil] at h
    simp at h

/-- C10 witness: a concrete two-action Q-function yields a valid action. -/
theorem select_action_valid_index_witness :
    0 < ((fun (_ : Unit) (_ : Unit) => [(5 : ℚ), 2]) () ()).length ∧
    select_action (fun (_ : Unit) (_ : Unit) => [(5 : ℚ), 2]) 9 (1 / 3) () () (1 / 2) <
      ((fun (_ : Unit) (_ : Unit) => [(5 : ℚ), 2]) () ()).length :=
  ⟨by decide,
    select_action_valid_index Unit Unit (fun _ _ => [(5 : ℚ), 2]) 9 (1 / 3) () () (1 / 2)
      (by decide)⟩

/-- The concrete wrap-around scenario: capacity 4, state shape `(1,)`, four
adds with states `[0], [1], [2], [3]`. -/
def demoBuf4 : ReplayBufferStorage :=
  addAll (init_buffer 4 1) [demoT 0, demoT 1, demoT 2, demoT 3]

/-- The same buffer after a fifth add with state `[4]`. -/
def demoBuf5 : ReplayBufferStorage := add_transition demoBuf4 (demoT 4)

/-- C4: after exactly `capacity` adds from `init_buffer` the storage has
`full = true` and `cursor = 0`, and the next add overwrites row 0 with the new
transition; concretely, after states `[0], [1], [2], [3]` fill a capacity-4
buffer, adding state `[4]` puts it in row 0 and no draw of `sample_transition`
can return state `[0]` any more. -/
theorem add_transition_wraparound :
    (∀ (cap d : ℕ) (ts : List (Transition (List ℚ))), 0 < cap → ts.length = cap →
      (addAll (init_buffer cap d) ts).full = true ∧
      (addAll (init_buffer cap d) ts).cursor = 0 ∧
      ∀ t : Transition (List ℚ),
        (add_transition (addAll (init_buffer cap d) ts) t).states.getD 0 [] = t.1) ∧
    demoBuf4.full = true ∧ demoBuf4.cursor = 0 ∧
    demoBuf5.states.getD 0 [] = [4] ∧
    (∀ rng : ℕ, (sample_transition rng demoBuf5).1 ≠ [0]) := by
  have hgen : ∀ (cap d : ℕ) (ts : List (Transition (List ℚ))), 0 < cap →
      ts.length = cap →
      (addAll (init_buffer cap d) ts).full = true ∧
      (addAll (init_buffer cap d) ts).cursor = 0 ∧
      ∀ t : Transition (List ℚ),
        (add_transition (addAll (init_buffer cap d) ts) t).states.getD 0 [] = t.1 := by
    intro cap d ts hcap hlen
    obtain ⟨g1, g2, g3, g4, g5, g6, g7⟩ :=
      addAll_spec cap hcap ts (init_buffer cap d)
        (by simp [init_buffer]) (by simp [init_buffer]) (by simp [init_buffer])
        (by simp [init_buffer]) (by simp [init_buffer]) (by simpa [init_buffer] using hcap)
    have hfull : (addAll (init_buffer cap d) ts).full = true := by
      rw [g7]
      right
      simp [init_buffer, hlen]
    have hcur : (addAll (init_buffer cap d) ts).cursor = 0 := by
      rw [g6]
      simp [init_buffer, hlen]
    refine ⟨hfull, hcur, ?_⟩
    intro t
    obtain ⟨ts1, ta, tr, td, tns⟩ := t
    show ((addAll (init_buffer cap d) ts).states.set
      (addAll (init_buffer cap d) ts).cursor ts1).getD 0 [] = ts1
    rw [hcur]
    exact getD_set_self _ _ _ _ (by rw [g1]; exact hcap)
  refine ⟨hgen, ?_, ?_, ?_, ?_⟩
  · exact (hgen 4 1 [demoT 0, demoT 1, demoT 2, demoT 3] (by norm_num) rfl).1
  · exact (hgen 4 1 [demoT 0, demoT 1, demoT 2, demoT 3] (by norm_num) rfl).2.1
  · exact (hgen 4 1 [demoT 0, demoT 1, demoT 2, demoT 3] (by norm_num) rfl).2.2 (demoT 4)
  · intro rng
    have hone : (sample_transition rng demoBuf5).1 =
        demoBuf5.states.getD (rng % 4) [] := rfl
    rw [hone]
    have hs : demoBuf5.states = [[(4 : ℚ)], [1], [2], [3]] := rfl
    rw [hs]
    have h4 : rng % 4 = 0 ∨ rng % 4 = 1 ∨ rng % 4 = 2 ∨ rng % 4 = 3 := by omega
    rcases h4 with h | h | h | h <;> rw [h] <;> decide

/-- C4 witness: the general wrap-around part instantiated at capacity 2 with
two concrete adds. -/
theorem add_transition_wraparound_witness :
    ((0 : ℕ) < 2 ∧ ([demoT 1, demoT 2] : List (Transition (List ℚ))).length = 2) ∧
    (addAll (init_buffer 2 1) [demoT 1, demoT 2]).full = true ∧
    (addAll (init_buffer 2 1) [demoT 1, demoT 2]).cursor = 0 :=
  ⟨⟨by norm_num, rfl⟩,
    (add_transition_wraparound.1 2 1 [demoT 1, demoT 2] (by norm_num) rfl).1,
    (add_transition_wraparound.1 2 1 [demoT 1, demoT 2] (by norm_num) rfl).2.1⟩

/-- C7: for every sequence of adds starting from `init_buffer`, all five
columns keep leading dimension exactly the capacity, the cursor stays in
`[0, capacity)`, `full` holds exactly when the adds have reached the capacity
(the advanced cursor has wrapped to 0), and once true it stays true under
further adds. -/
theorem buffer_invariants :
    (∀ (cap d : ℕ) (ts : List (Transition (List ℚ))), 0 < cap →
      (addAll (init_buffer cap d) ts).states.length = cap ∧
      (addAll (init_buffer cap d) ts).actions.length = cap ∧
      (addAll (init_buffer cap d) ts).rewards.length = cap ∧
      (addAll (init_buffer cap d) ts).dones.length = cap ∧
      (addAll (init_buffer cap d) ts).next_states.length = cap ∧
      (addAll (init_buffer cap d) ts).cursor < cap ∧
      ((addAll (init_buffer cap d) ts).full = true ↔ cap ≤ ts.length)) ∧
    (∀ (cap d : ℕ) (ts ts' : List (Transition (List ℚ))), 0 < cap →
      (addAll (init_buffer cap d) ts).full = true →
      (addAll (init_buffer cap d) (ts ++ ts')).full = true) := by
  have hmain : ∀ (cap d : ℕ) (ts : List (Transition (List ℚ))), 0 < cap →
      (addAll (init_buffer cap d) ts).states.length = cap ∧
      (addAll (init_buffer cap d) ts).actions.length = cap ∧
      (addAll (init_buffer cap d) ts).rewards.length = cap ∧
      (addAll (init_buffer cap d) ts).dones.length = cap ∧
      (addAll (init_buffer cap d) ts).next_states.length = cap ∧
      (addAll (init_buffer cap d) ts).cursor < cap ∧
      ((addAll (init_buffer cap d) ts).full = true ↔ cap ≤ ts.length) := by
    intro cap d ts hcap
    obtain ⟨g1, g2, g3, g4, g5, g6, g7⟩ :=
      addAll_spec cap hcap ts (init_buffer cap d)
        (by simp [init_buffer]) (by simp [init_buffer]) (by simp [init_buffer])
        (by simp [init_buffer]) (by simp [init_buffer]) (by simpa [init_buffer] using hcap)
    refine ⟨g1, g2, g3, g4, g5, ?_, ?_⟩
    · rw [g6]
      exact Nat.mod_lt _ hcap
    · rw [g7]
      simp [init_buffer]
  refine ⟨hmain, ?_⟩
  intro cap d ts ts' hcap hfull
  have h1 := ((hmain cap d ts hcap).2.2.2.2.2.2).mp hfull
  refine ((hmain cap d (ts ++ ts') hcap).2.2.2.2.2.2).mpr ?_
  rw [List.length_append]
  omega

/-- C7 witness: a concrete instance — capacity 3, two adds keep all
invariants, and a full buffer stays full after one more add. -/
theorem buffer_invariants_witness :
    (0 : ℕ) < 3 ∧
    (addAll (init_buffer 3 1) [demoT 1, demoT 2]).cursor < 3 ∧
    ((addAll (init_buffer 3 1) [demoT 1, demoT 2]).full = true ↔
      3 ≤ ([demoT 1, demoT 2] : List (Transition (List ℚ))).length) :=
  ⟨by norm_num, (buffer_invariants.1 3 1 [demoT 1, demoT 2] (by norm_num)).2.2.2.2.2.1,
    (buffer_invariants.1 3 1 [demoT 1, demoT 2] (by norm_num)).2.2.2.2.2.2⟩

/-- C9: `add_transition` only touches row `cursor`: every other row of each of
the five columns is unchanged in the returned storage. -/
theorem add_transition_frame (buffer : ReplayBufferStorage)
    (t : Transition (List ℚ)) (i : ℕ) (h : i ≠ buffer.cursor) :
    (add_transition buffer t).states.getD i [] = buffer.states.getD i [] ∧
    (add_transition buffer t).actions.getD i 0 = buffer.actions.getD i 0 ∧
    (add_transition buffer t).rewards.getD i 0 = buffer.rewards.getD i 0 ∧
    (add_transition buffer t).dones.getD i false = buffer.dones.getD i false ∧
    (add_transition buffer t).next_states.getD i [] = buffer.next_states.getD i [] := by
  obtain ⟨s, a, r, d, ns⟩ := t
  exact ⟨getD_set_ne _ _ _ _ _ h, getD_set_ne _ _ _ _ _ h, getD_set_ne _ _ _ _ _ h,
    getD_set_ne _ _ _ _ _ h, getD_set_ne _ _ _ _ _ h⟩

/-- C9 witness: adding to the demo buffer (cursor 3) leaves row 0 unchanged. -/
theorem add_transition_frame_witness :
    (0 : ℕ) ≠ demoPartial.cursor ∧
    (add_transition demoPartial (demoT 9)).states.getD 0 [] =
      demoPartial.states.getD 0 [] :=
  ⟨by decide, (add_transition_frame demoPartial (demoT 9) 0 (by decide)).1⟩

/-- C8 counterexample: `add_transition` contains no assertion or shape check —
a state whose shape disagrees with the storage's state shape (here length 1
against rows of length 3) is written into the row silently and the call
returns a normal storage; nothing fails fast.  (In the source the array
library even broadcasts a broadcast-compatible wrong shape across the row.) -/
theorem add_transition_no_shape_check :
    (init_buffer 2 3).states.getD 0 [] = [0, 0, 0] ∧
    (add_transition (init_buffer 2 3) ([7], 0, 0, false, [7])).states.getD 0 [] = [7] ∧
    ((add_transition (init_buffer 2 3) ([7], 0, 0, false, [7])).states.getD 0 []).length ≠ 3 :=
  ⟨rfl, rfl, by decide⟩

/-- C8 amended: `add_transition` performs no shape validation — whatever state
value is passed is written into row `cursor` exactly as given. -/
theorem add_transition_writes_state_unchecked (buffer : ReplayBufferStorage)
    (t : Transition (List ℚ)) (h : buffer.cursor < buffer.states.length) :
    (add_transition buffer t).states.getD buffer.cursor [] = t.1 := by
  obtain ⟨s, a, r, d, ns⟩ := t
  exact getD_set_self _ _ _ _ h

/-- C8 witness: the unchecked write observed on a concrete storage. -/
theorem add_transition_writes_state_unchecked_witness :
    (init_buffer 2 3).cursor < (init_buffer 2 3).states.length ∧
    (add_transition (init_buffer 2 3) ([7], 0, 0, false, [7])).states.getD
      (init_buffer 2 3).cursor [] = [7] :=
  ⟨by decide,
    add_transition_writes_state_unchecked (init_buffer 2 3) ([7], 0, 0, false, [7])
      (by decide)⟩
